import Mathlib

/-!
Verification of the IDE backend (`IDE/backend/main.py`): a shallow embedding
of its path guard, one-shot execution pipelines, workspace file operations,
directory listing and interactive websocket session, with theorems checking
the specification's claims against the embedded code.

Python strings are modelled as Lean `String`s; the ASCII-level string methods
the code uses (`lower`, `strip`, substring membership) are embedded below.
Filesystem paths are modelled as segment lists; `pathlib` operations
(`/` join, `resolve`, `parents`, `relative_to`) are embedded lexically on a
symlink-free tree. Subprocess execution is modelled by an oracle mapping an
argv to an outcome (normal completion, timeout, or spawn failure), so that
endpoint logic — which stages run, in which order, and what is returned — is
a pure function of the oracle.
-/

namespace IDEBackend

/-! ### Python string methods -/

/-- `str.lower()` restricted to ASCII case mapping (the identifiers and
sentinel substrings compared by the code are ASCII). -/
def pyLower (s : String) : String := String.mk (s.data.map Char.toLower)

/-- ASCII whitespace stripped by `str.strip()`. -/
def pyIsSpace (c : Char) : Bool :=
  c = ' ' || c = '\t' || c = '\n' || c = '\r' || c = '\x0b' || c = '\x0c'

/-- `str.strip()`: drop leading and trailing whitespace. -/
def pyStrip (s : String) : String :=
  String.mk (((s.data.dropWhile pyIsSpace).reverse.dropWhile pyIsSpace).reverse)

/-- Substring membership on character lists (Python's `needle in hay`). -/
def containsSub (needle hay : List Char) : Bool :=
  hay.tails.any (fun t => needle.isPrefixOf t)

/-- Python's `needle in hay` on strings. -/
def pyInStr (needle hay : String) : Bool := containsSub needle.data hay.data

/-! ### Paths (`pathlib` on a symlink-free tree) -/

/-- A client-supplied POSIX path string, parsed: whether it is absolute and
its raw segments, which may include `.`, `..` and empty segments. -/
structure ClientPath where
  absolute : Bool
  segs : List String
deriving DecidableEq

/-- `PurePath` joining (the `/` operator): an absolute right operand replaces
the left; otherwise the segments are appended. The left operand is an
already-canonical absolute path given by its segments from the root. -/
def pyJoin (base : List String) (rel : ClientPath) : ClientPath :=
  if rel.absolute then rel else ⟨true, base ++ rel.segs⟩

/-- Worker for `pyResolve`: `acc` holds the canonical segments produced so
far, in reverse. `.` and empty segments are no-ops; `..` pops the last
canonical segment (staying at the root when already there). -/
def resolveSegs : List String → List String → List String
  | acc, [] => acc.reverse
  | acc, s :: rest =>
    if s = "." ∨ s = "" then resolveSegs acc rest
    else if s = ".." then resolveSegs (acc.drop 1) rest
    else resolveSegs (s :: acc) rest

/-- `Path.resolve()` on a symlink-free tree: lexical canonicalization of the
(absolute) joined path. -/
def pyResolve (p : ClientPath) : List String := resolveSegs [] p.segs

/-- `PurePath.parents` of a canonical absolute path, as segment lists: every
proper prefix, i.e. every ancestor up to the filesystem root. -/
def pyParents (segs : List String) : List (List String) :=
  (List.range segs.length).map (fun k => segs.take k)

/-- An HTTP error as raised by `HTTPException(status_code, detail)`. -/
structure HTTPError where
  status : Nat
  detail : String
deriving DecidableEq

/-- `safe_workspace_path` from `main.py`, parameterized by the workspace
root `W` (the canonical segments of `WORKSPACE_DIR`): join the client path
onto the root, canonicalize, and raise HTTP 400 "Invalid path" when the root
is neither among the result's parents nor equal to it. -/
def safe_workspace_path (W : List String) (relPath : ClientPath) :
    Except HTTPError (List String) :=
  let target := pyResolve (pyJoin W relPath)
  if W ∉ pyParents target ∧ target ≠ W then .error ⟨400, "Invalid path"⟩
  else .ok target

/-- Spec-side notion for C1: the canonical path `t` is the workspace root
itself or a descendant of it. -/
def descendantOrRoot (W t : List String) : Prop := W <+: t

instance (W t : List String) : Decidable (descendantOrRoot W t) :=
  inferInstanceAs (Decidable (W <+: t))

/-! ### One-shot subprocess execution -/

/-- The outcome of one subprocess invocation, as reported by the execution
oracle: normal completion with captured stdout/stderr, a timeout (carrying
whatever partial output had been collected before the kill), or a spawn
failure (missing binary) with the exception text. -/
inductive ProcOutcome
  | completes (stdout stderr : String)
  | timesOut (partialOut partialErr : String)
  | spawnFails (msg : String)
deriving DecidableEq

/-- `_run_subprocess` from `main.py`: run one stage to completion and convert
every failure into a normal (stdout, stderr) return value — a timeout becomes
`("", "Execution timed out")` (partial output dropped), a missing binary
becomes `("", "Command not found: ...")`. -/
def run_subprocess : ProcOutcome → String × String
  | .completes o e => (o, e)
  | .timesOut _ _ => ("", "Execution timed out")
  | .spawnFails m => ("", "Command not found: " ++ m)

/-- Whether an outcome is a timeout. -/
def isTimeout : ProcOutcome → Bool
  | .timesOut _ _ => true
  | _ => false

/-- Argv of the `python` stage on the scratch directory `tmp`. -/
def pyArgv (tmp : String) : List String := ["python", tmp ++ "/main.py"]

/-- Argv of the `python3` retry stage. -/
def py3Argv (tmp : String) : List String := ["python3", tmp ++ "/main.py"]

/-- Argv of the C compile stage. -/
def gccArgv (tmp : String) : List String :=
  ["gcc", tmp ++ "/main.c", "-O2", "-std=c11", "-o", "main"]

/-- Argv of the C/C++ run stage (the compiled binary). -/
def binArgv (tmp : String) : List String := [tmp ++ "/main"]

/-- Argv of the C++ compile stage. -/
def gppArgv (tmp : String) : List String :=
  ["g++", tmp ++ "/main.cpp", "-O2", "-std=c++17", "-o", "main"]

/-- Argv of the JavaScript run stage. -/
def nodeArgv (tmp : String) : List String := ["node", tmp ++ "/main.js"]

/-- Argv of the Java compile stage. -/
def javacArgv (tmp : String) : List String := ["javac", tmp ++ "/Main.java"]

/-- Argv of the Java run stage. -/
def javaArgv (tmp : String) : List String := ["java", "-cp", tmp, "Main"]

/-- `/run/python` endpoint (`run_python`): run with `python`; when the
lowercased stderr contains "not found", rerun with `python3` and keep only
the second result. The second component is the trace of argvs invoked, in
order. -/
def run_python (exec : List String → ProcOutcome) (tmp : String) :
    (String × String) × List (List String) :=
  let r1 := run_subprocess (exec (pyArgv tmp))
  if pyInStr "not found" (pyLower r1.2) then
    (run_subprocess (exec (py3Argv tmp)), [pyArgv tmp, py3Argv tmp])
  else (r1, [pyArgv tmp])

/-- `/run` endpoint (`run_code`): lowercase and strip the language, dispatch
on the per-language branches of the source (python retry, compile gate on
non-empty compiler stderr for c/cpp/java, plain run for javascript), HTTP 400
otherwise. The second component is the trace of argvs invoked, in order. -/
def run_code (exec : List String → ProcOutcome) (tmp language : String) :
    Except HTTPError (String × String) × List (List String) :=
  let lang := pyStrip (pyLower language)
  if lang = "python" ∨ lang = "py" then
    let r1 := run_subprocess (exec (pyArgv tmp))
    if pyInStr "not found" (pyLower r1.2) then
      (.ok (run_subprocess (exec (py3Argv tmp))), [pyArgv tmp, py3Argv tmp])
    else (.ok r1, [pyArgv tmp])
  else if lang = "c" then
    let ce := (run_subprocess (exec (gccArgv tmp))).2
    if ce ≠ "" then (.ok ("", ce), [gccArgv tmp])
    else (.ok (run_subprocess (exec (binArgv tmp))), [gccArgv tmp, binArgv tmp])
  else if lang = "cpp" ∨ lang = "c++" then
    let ce := (run_subprocess (exec (gppArgv tmp))).2
    if ce ≠ "" then (.ok ("", ce), [gppArgv tmp])
    else (.ok (run_subprocess (exec (binArgv tmp))), [gppArgv tmp, binArgv tmp])
  else if lang = "javascript" ∨ lang = "js" ∨ lang = "node" then
    (.ok (run_subprocess (exec (nodeArgv tmp))), [nodeArgv tmp])
  else if lang = "java" then
    let ce := (run_subprocess (exec (javacArgv tmp))).2
    if ce ≠ "" then (.ok ("", ce), [javacArgv tmp])
    else (.ok (run_subprocess (exec (javaArgv tmp))), [javacArgv tmp, javaArgv tmp])
  else
    (.error ⟨400, "Unsupported language. Use python, c, cpp, javascript, or java"⟩, [])

/-- The compile-stage argv of a compiled language (canonical branch keys of
`run_code`). -/
def compileArgvOf (tmp lang : String) : List String :=
  if lang = "c" then gccArgv tmp
  else if lang = "java" then javacArgv tmp
  else gppArgv tmp

/-- The run-stage argv of each language branch of `run_code`. -/
def runArgvOf (tmp lang : String) : List String :=
  if lang = "python" ∨ lang = "py" then pyArgv tmp
  else if lang = "c" ∨ lang = "cpp" ∨ lang = "c++" then binArgv tmp
  else if lang = "javascript" ∨ lang = "js" ∨ lang = "node" then nodeArgv tmp
  else javaArgv tmp

/-- The supported language identifiers and aliases of the `/run` endpoint. -/
def supportedIds : List String :=
  ["python", "py", "c", "cpp", "c++", "javascript", "js", "node", "java"]

/-- Spec-side notion for C5: the identifier equals a supported identifier or
alias when compared case-insensitively (no whitespace stripping). -/
def specSupported (s : String) : Prop := pyLower s ∈ supportedIds

instance (s : String) : Decidable (specSupported s) :=
  inferInstanceAs (Decidable (pyLower s ∈ supportedIds))

/-! ### Theorems: C1 -/

theorem mem_pyParents {W t : List String} : W ∈ pyParents t ↔ W <+: t ∧ W ≠ t := by
  unfold pyParents
  simp only [List.mem_map, List.mem_range]
  constructor
  · rintro ⟨k, hk, rfl⟩
    refine ⟨List.take_prefix k t, fun h => ?_⟩
    have := congrArg List.length h
    simp only [List.length_take] at this
    omega
  · rintro ⟨⟨s, rfl⟩, hne⟩
    have hs : s ≠ [] := by rintro rfl; simp at hne
    refine ⟨W.length, ?_, List.take_left W s⟩
    have : 0 < s.length := List.length_pos.mpr hs
    simp only [List.length_append]
    omega

/-- C1: for every client path whose canonical resolution against the
workspace root is neither the root nor a descendant of it,
`safe_workspace_path` fails with HTTP 400 "Invalid path"; for every client
path whose canonical resolution is the root or a descendant, it returns that
canonical absolute path. -/
theorem C1_safe_workspace_path (W : List String) (p : ClientPath) :
    (¬ descendantOrRoot W (pyResolve (pyJoin W p)) →
      safe_workspace_path W p = .error ⟨400, "Invalid path"⟩) ∧
    (descendantOrRoot W (pyResolve (pyJoin W p)) →
      safe_workspace_path W p = .ok (pyResolve (pyJoin W p))) := by
  unfold safe_workspace_path descendantOrRoot
  constructor
  · intro hout
    rw [if_pos]
    refine ⟨fun hmem => hout (mem_pyParents.mp hmem).1, fun heq => hout ?_⟩
    rw [heq]
  · intro hin
    rw [if_neg]
    push_neg
    intro hmem
    by_contra hne
    exact hmem (mem_pyParents.mpr ⟨hin, Ne.symm hne⟩)

/-- Witness for C1 at concrete inputs: a traversal path escaping the root is
rejected, and an in-root path (even one containing `..`) resolves and is
returned. -/
theorem C1_safe_workspace_path_witness :
    safe_workspace_path ["srv", "workspace"] ⟨false, ["..", "..", "etc", "passwd"]⟩ =
      .error ⟨400, "Invalid path"⟩ ∧
    safe_workspace_path ["srv", "workspace"] ⟨false, ["a", "..", "b.txt"]⟩ =
      .ok ["srv", "workspace", "b.txt"] :=
  ⟨(C1_safe_workspace_path ["srv", "workspace"] ⟨false, ["..", "..", "etc", "passwd"]⟩).1
      (by decide),
   (C1_safe_workspace_path ["srv", "workspace"] ⟨false, ["a", "..", "b.txt"]⟩).2
      (by decide)⟩

/-! ### Theorems: C3 (timeout result) -/

/-- C3: for every subprocess outcome that is a timeout, `_run_subprocess`
returns exactly stdout = "" and stderr = "Execution timed out" — whatever
output had been collected so far is discarded — and this is a normal return
value of the operation, not a raised fault. -/
theorem C3_timeout_result (outcome : ProcOutcome) (h : isTimeout outcome = true) :
    run_subprocess outcome = ("", "Execution timed out") := by
  cases outcome with
  | completes o e => simp [isTimeout] at h
  | timesOut po pe => rfl
  | spawnFails m => simp [isTimeout] at h

/-- Witness for C3: a timed-out subprocess that had already produced partial
output still yields the fixed pair, the partial output being discarded. -/
theorem C3_timeout_result_witness :
    run_subprocess (.timesOut "partial out" "partial err") = ("", "Execution timed out") :=
  C3_timeout_result (.timesOut "partial out" "partial err") rfl

/-! ### Theorems: C4 (compile gate) -/

/-- C4: for every compiled-language request (c, cpp/c++, java), the compile
stage runs first; when its stderr is non-empty (any output, warnings
included) the endpoint returns ("", that compiler stderr) and the run stage
is never invoked (the trace holds only the compile argv); when its stderr is
empty, the run stage is invoked and its stdout/stderr are returned. -/
theorem C4_compile_gate (exec : List String → ProcOutcome) (tmp language : String)
    (h : pyStrip (pyLower language) = "c" ∨ pyStrip (pyLower language) = "cpp" ∨
         pyStrip (pyLower language) = "c++" ∨ pyStrip (pyLower language) = "java") :
    ((run_subprocess (exec (compileArgvOf tmp (pyStrip (pyLower language))))).2 ≠ "" →
      run_code exec tmp language =
        (.ok ("", (run_subprocess (exec (compileArgvOf tmp (pyStrip (pyLower language))))).2),
         [compileArgvOf tmp (pyStrip (pyLower language))])) ∧
    ((run_subprocess (exec (compileArgvOf tmp (pyStrip (pyLower language))))).2 = "" →
      run_code exec tmp language =
        (.ok (run_subprocess (exec (runArgvOf tmp (pyStrip (pyLower language))))),
         [compileArgvOf tmp (pyStrip (pyLower language)),
          runArgvOf tmp (pyStrip (pyLower language))])) := by
  rcases h with h | h | h | h <;>
    (constructor <;> intro hce <;> rw [h] at hce <;> simp [compileArgvOf] at hce <;>
      simp [run_code, compileArgvOf, runArgvOf, h, hce])

/-- Oracle for the C4 witness: the C compiler emits a warning on stderr,
every other stage would complete cleanly. -/
def execC4 : List String → ProcOutcome := fun argv =>
  if argv = gccArgv "/t" then .completes "" "main.c: warning: unused"
  else .completes "ran" ""

/-- Witness for C4 at a concrete input: language "C" (case-insensitive), a
compiler warning on stderr — the endpoint returns it and never runs the
binary. -/
theorem C4_compile_gate_witness :
    run_code execC4 "/t" "C" = (.ok ("", "main.c: warning: unused"), [gccArgv "/t"]) := by
  have h := (C4_compile_gate execC4 "/t" "C" (by decide)).1 (by decide)
  rw [h]
  rfl

/-! ### Theorems: C5 (language dispatch) -/

/-- C5 counterexample: the identifier "python " (trailing space) is not
case-insensitively equal to any supported identifier or alias, yet `/run`
does not fail with HTTP 400 — it dispatches successfully, because the code
also strips surrounding whitespace. -/
theorem C5_counterexample :
    ¬ specSupported "python " ∧
    (run_code (fun _ => .completes "" "") "/t" "python ").1 = .ok ("", "") := by
  constructor
  · decide
  · rfl

theorem notFound_not_in_empty : pyInStr "not found" (pyLower "") = false := by decide

/-- C5 (amended): for every identifier whose lowercased and
whitespace-stripped form is in {python, py, c, cpp, c++, javascript, js,
node, java}, `/run` dispatches to a pipeline with a run stage (under an
oracle where every stage completes cleanly, the request succeeds and the
last stage invoked is that language's run stage); for every other identifier
it fails with HTTP 400 naming python, c, cpp, javascript and java. -/
theorem C5_dispatch (exec : List String → ProcOutcome) (tmp s : String)
    (benign : ∀ a, exec a = .completes "out" "") :
    (pyStrip (pyLower s) ∈ supportedIds →
      (run_code exec tmp s).1 = .ok ("out", "") ∧
      (run_code exec tmp s).2.getLast? = some (runArgvOf tmp (pyStrip (pyLower s)))) ∧
    (pyStrip (pyLower s) ∉ supportedIds →
      run_code exec tmp s =
        (.error ⟨400, "Unsupported language. Use python, c, cpp, javascript, or java"⟩,
         [])) := by
  constructor
  · intro hmem
    simp only [supportedIds, List.mem_cons, List.not_mem_nil, or_false] at hmem
    rcases hmem with h | h | h | h | h | h | h | h | h <;>
      (constructor <;>
        simp [run_code, runArgvOf, h, benign, run_subprocess, notFound_not_in_empty])
  · intro hmem
    simp only [supportedIds, List.mem_cons, List.not_mem_nil, or_false, not_or] at hmem
    obtain ⟨h1, h2, h3, h4, h5, h6, h7, h8, h9⟩ := hmem
    simp [run_code, h1, h2, h3, h4, h5, h6, h7, h8, h9]

/-- Witness for C5 at concrete inputs: "Node" dispatches (case-insensitive
alias), "ruby" yields the HTTP 400 error naming the valid options. -/
theorem C5_dispatch_witness :
    (run_code (fun _ => .completes "out" "") "/t" "Node").1 = .ok ("out", "") ∧
    run_code (fun _ => .completes "out" "") "/t" "ruby" =
      (.error ⟨400, "Unsupported language. Use python, c, cpp, javascript, or java"⟩,
       []) :=
  ⟨((C5_dispatch (fun _ => .completes "out" "") "/t" "Node" (fun _ => rfl)).1 (by decide)).1,
   (C5_dispatch (fun _ => .completes "out" "") "/t" "ruby" (fun _ => rfl)).2 (by decide)⟩

/-! ### Theorems: C10 (python "not found" retry) -/

/-- C10: for both python one-shot endpoints (`/run/python` and `/run` with a
python identifier), whenever the first invocation's stderr contains
"not found" case-insensitively, the code is executed a second time under
`python3` and that second result replaces the first — the trace shows both
invocations, so this also fires when the first run spawned fine and the
user's own program printed "not found" to stderr (the user's code runs
twice). -/
theorem C10_not_found_retry (exec : List String → ProcOutcome) (tmp s : String)
    (hlang : pyStrip (pyLower s) = "python" ∨ pyStrip (pyLower s) = "py")
    (hnf : pyInStr "not found" (pyLower (run_subprocess (exec (pyArgv tmp))).2) = true) :
    run_python exec tmp = (run_subprocess (exec (py3Argv tmp)), [pyArgv tmp, py3Argv tmp]) ∧
    run_code exec tmp s =
      (.ok (run_subprocess (exec (py3Argv tmp))), [pyArgv tmp, py3Argv tmp]) := by
  constructor
  · simp [run_python, hnf]
  · rcases hlang with h | h <;> simp [run_code, h, hnf]

/-- Oracle for the C10 witness: the first python run completes normally but
the user's program printed "File Not Found" to stderr; the python3 rerun
returns something else. -/
def execC10 : List String → ProcOutcome := fun argv =>
  if argv = pyArgv "/t" then .completes "first" "user says: File Not Found"
  else .completes "second" ""

/-- Witness for C10 at a concrete input: the first result is discarded and
both interpreters are invoked even though the first run succeeded. -/
theorem C10_not_found_retry_witness :
    run_python execC10 "/t" = (("second", ""), [pyArgv "/t", py3Argv "/t"]) ∧
    run_code execC10 "/t" "py" =
      (.ok ("second", ""), [pyArgv "/t", py3Argv "/t"]) := by
  have h := C10_not_found_retry execC10 "/t" "py" (by decide) (by decide)
  exact ⟨h.1, h.2⟩

/-! ### Directory listing (`list_directory`) -/

/-- A node of the live filesystem under the workspace root. -/
inductive FS
  | file (name : String)
  | dir (name : String) (children : List FS)

/-- The entry's file or directory name. -/
def FS.name : FS → String
  | .file n => n
  | .dir n _ => n

/-- `p.is_file()` of the node. -/
def FS.isFile : FS → Bool
  | .file _ => true
  | .dir _ _ => false

/-- Lexicographic comparison of character lists by code point (Python `str`
ordering on the lowered names). -/
def charsLe : List Char → List Char → Bool
  | [], _ => true
  | _ :: _, [] => false
  | a :: as, b :: bs =>
    if a.toNat < b.toNat then true
    else if b.toNat < a.toNat then false
    else charsLe as bs

/-- The sort key comparison of `list_directory`: Python tuple ordering on
`(p.is_file(), p.name.lower())` — directories (is_file = false) before
files, then lowercased name ascending. -/
def sortKeyLe (a b : FS) : Bool :=
  if a.isFile = b.isFile then charsLe (pyLower a.name).data (pyLower b.name).data
  else !a.isFile

/-- One node of the JSON tree `list_directory` returns. -/
inductive Entry
  | file (name path : String)
  | folder (name path : String) (children : List Entry)

/-- The "name" field of an entry. -/
def Entry.name : Entry → String
  | .file n _ => n
  | .folder n _ _ => n

/-- The "path" field of an entry. -/
def Entry.path : Entry → String
  | .file _ p => p
  | .folder _ p _ => p

/-- The "type" field of an entry. -/
def Entry.typeStr : Entry → String
  | .file _ _ => "file"
  | .folder _ _ _ => "folder"

/-- The optional "children" field of an entry. -/
def Entry.childrenOpt : Entry → Option (List Entry)
  | .file _ _ => none
  | .folder _ _ cs => some cs

/-- Whether an entry is a file entry. -/
def Entry.isFileE : Entry → Bool
  | .file _ _ => true
  | .folder _ _ _ => false

/-- `str(child.relative_to(WORKSPACE_DIR))`: the root-anchored relative path
of a child named `n` of the directory whose relative path is `pp`. -/
def joinRel (pp n : String) : String := if pp = "" then n else pp ++ "/" ++ n

mutual

/-- The dict built for one sorted child in the loop of `list_directory`. -/
def entryOfFS (pp : String) : FS → Entry
  | .file n => .file n (joinRel pp n)
  | .dir n gs => .folder n (joinRel pp n) (list_directory (joinRel pp n) gs)
termination_by f => sizeOf f

/-- `list_directory` from `main.py`, for the directory at relative path `pp`
with live children `cs`: sort the children by `(is_file, name.lower())` and
build one entry per child, recursing into subdirectories. -/
def list_directory (pp : String) (cs : List FS) : List Entry :=
  ((cs.mergeSort sortKeyLe).attach).map (fun c => entryOfFS pp c.1)
termination_by sizeOf cs
decreasing_by
  have h1 := List.sizeOf_lt_of_mem (List.mem_mergeSort.mp c.2)
  omega

end

/-- Spec-side comparator for C7 on produced entries: type (folders before
files), then lowercased name. -/
def entryLe (a b : Entry) : Bool :=
  if a.isFileE = b.isFileE then charsLe (pyLower a.name).data (pyLower b.name).data
  else !a.isFileE

/-! ### Theorems: C7 (tree listing order and shape) -/

theorem charsLe_total (a : List Char) : ∀ b, (charsLe a b || charsLe b a) = true := by
  induction a with
  | nil => intro b; cases b <;> rfl
  | cons x xs ih =>
    intro b
    cases b with
    | nil => rfl
    | cons y ys =>
      rcases Nat.lt_trichotomy x.toNat y.toNat with h | h | h
      · simp [charsLe, h]
      · have hxy : ¬ x.toNat < y.toNat := by omega
        have hyx : ¬ y.toNat < x.toNat := by omega
        simpa [charsLe, hxy, hyx] using ih ys
      · simp [charsLe, h, Nat.lt_asymm h]

theorem charsLe_trans (a : List Char) :
    ∀ b c, charsLe a b = true → charsLe b c = true → charsLe a c = true := by
  induction a with
  | nil => intro b c _ _; rfl
  | cons x xs ih =>
    intro b c hab hbc
    cases b with
    | nil => simp [charsLe] at hab
    | cons y ys =>
      cases c with
      | nil => simp [charsLe] at hbc
      | cons z zs =>
        simp only [charsLe] at hab hbc ⊢
        by_cases hxy : x.toNat < y.toNat <;> by_cases hyz : y.toNat < z.toNat
        · rw [if_pos (Nat.lt_trans hxy hyz)]
        · by_cases hzy : z.toNat < y.toNat
          · rw [if_neg hyz, if_pos hzy] at hbc
            simp at hbc
          · have hxz : x.toNat < z.toNat := by omega
            rw [if_pos hxz]
        · by_cases hyx : y.toNat < x.toNat
          · rw [if_neg hxy, if_pos hyx] at hab
            simp at hab
          · have hxz : x.toNat < z.toNat := by omega
            rw [if_pos hxz]
        · by_cases hyx : y.toNat < x.toNat
          · rw [if_neg hxy, if_pos hyx] at hab
            simp at hab
          · by_cases hzy : z.toNat < y.toNat
            · rw [if_neg hyz, if_pos hzy] at hbc
              simp at hbc
            · rw [if_neg hxy, if_neg hyx] at hab
              rw [if_neg hyz, if_neg hzy] at hbc
              have hxz : ¬ x.toNat < z.toNat := by omega
              have hzx : ¬ z.toNat < x.toNat := by omega
              rw [if_neg hxz, if_neg hzx]
              exact ih ys zs hab hbc

theorem sortKeyLe_total (a b : FS) : (sortKeyLe a b || sortKeyLe b a) = true := by
  unfold sortKeyLe
  by_cases h : a.isFile = b.isFile
  · rw [if_pos h, if_pos h.symm]
    exact charsLe_total _ _
  · rw [if_neg h, if_neg (fun he => h he.symm)]
    revert h
    cases a.isFile <;> cases b.isFile <;> simp

theorem sortKeyLe_trans (a b c : FS) (hab : sortKeyLe a b = true)
    (hbc : sortKeyLe b c = true) : sortKeyLe a c = true := by
  unfold sortKeyLe at hab hbc ⊢
  by_cases h1 : a.isFile = b.isFile <;> by_cases h2 : b.isFile = c.isFile
  · rw [if_pos h1] at hab
    rw [if_pos h2] at hbc
    rw [if_pos (h1.trans h2)]
    exact charsLe_trans _ _ _ hab hbc
  · rw [if_neg h2] at hbc
    rw [if_neg (fun he => h2 (h1.symm.trans he)), h1]
    exact hbc
  · rw [if_neg h1] at hab
    rw [if_neg (fun he => h1 (he.trans h2.symm))]
    exact hab
  · rw [if_neg h1] at hab
    rw [if_neg h2] at hbc
    exfalso
    revert hab hbc h1
    cases a.isFile <;> cases b.isFile <;> simp

/-- The loop body preserves the child's name. -/
theorem entryOfFS_name (pp : String) (f : FS) : (entryOfFS pp f).name = f.name := by
  cases f <;> simp [entryOfFS, Entry.name, FS.name]

/-- The loop body preserves the child's kind. -/
theorem entryOfFS_isFile (pp : String) (f : FS) : (entryOfFS pp f).isFileE = f.isFile := by
  cases f <;> simp [entryOfFS, Entry.isFileE, FS.isFile]

/-- The loop body assigns the root-anchored relative path. -/
theorem entryOfFS_path (pp : String) (f : FS) :
    (entryOfFS pp f).path = joinRel pp f.name := by
  cases f <;> simp [entryOfFS, Entry.path, FS.name]

/-- `list_directory` is the map of the loop body over the sorted children. -/
theorem list_directory_eq (pp : String) (cs : List FS) :
    list_directory pp cs = (cs.mergeSort sortKeyLe).map (entryOfFS pp) := by
  rw [list_directory]
  exact List.attach_map_coe _ _

/-- C7: the children `list_directory` produces for any directory are ordered
by the comparator (is-file flag, lowercased name ascending) — a single
comparator sort, so folders precede files and names ascend within each kind
— every entry carries the child's name and its root-anchored relative path,
the children field is present exactly on folder entries, and the entries are
in bijection with the live children (names are a permutation). -/
theorem C7_list_directory (pp : String) (cs : List FS) :
    List.Pairwise (fun a b => entryLe a b = true) (list_directory pp cs) ∧
    List.Pairwise (fun a b => a.isFileE = true → b.isFileE = true) (list_directory pp cs) ∧
    (∀ e ∈ list_directory pp cs,
      e.path = joinRel pp e.name ∧ ((e.childrenOpt).isSome ↔ e.typeStr = "folder")) ∧
    ((list_directory pp cs).map Entry.name).Perm (cs.map FS.name) := by
  have hsorted : List.Pairwise (fun a b => sortKeyLe a b = true) (cs.mergeSort sortKeyLe) :=
    List.sorted_mergeSort sortKeyLe_trans sortKeyLe_total cs
  have hmap : List.Pairwise (fun a b => entryLe a b = true)
      ((cs.mergeSort sortKeyLe).map (entryOfFS pp)) := by
    refine List.Pairwise.map _ (fun a b hab => ?_) hsorted
    unfold entryLe
    unfold sortKeyLe at hab
    rw [entryOfFS_isFile, entryOfFS_isFile, entryOfFS_name, entryOfFS_name]
    exact hab
  have horder : List.Pairwise (fun a b => entryLe a b = true) (list_directory pp cs) := by
    rw [list_directory_eq]; exact hmap
  refine ⟨horder, ?_, ?_, ?_⟩
  · refine horder.imp (fun {a b} hab ha => ?_)
    by_contra hb
    have hb' : b.isFileE = false := by revert hb; cases b.isFileE <;> simp
    unfold entryLe at hab
    rw [ha, hb'] at hab
    simp at hab
  · intro e he
    rw [list_directory_eq] at he
    obtain ⟨f, hf, rfl⟩ := List.mem_map.mp he
    refine ⟨?_, ?_⟩
    · rw [entryOfFS_path, entryOfFS_name]
    · cases f <;> simp [entryOfFS, Entry.childrenOpt, Entry.typeStr]
  · rw [list_directory_eq, List.map_map]
    have heq : (cs.mergeSort sortKeyLe).map (Entry.name ∘ entryOfFS pp)
        = (cs.mergeSort sortKeyLe).map FS.name :=
      List.map_congr_left (fun f _ => entryOfFS_name pp f)
    rw [heq]
    exact (List.mergeSort_perm cs sortKeyLe).map FS.name

/-! ### Workspace file operations (`open_file`, `save_file`, `upload_files`) -/

/-- The workspace file store: canonical absolute path ↦ file text as stored
on disk (newest binding first). -/
def FileStore := List (List String × String)

/-- Universal-newline translation applied by `Path.read_text` (text mode
with `newline=None`): every "\r\n" and every lone "\r" reads back as
"\n". -/
def univNewlines : List Char → List Char
  | [] => []
  | [c] => [if c = '\r' then '\n' else c]
  | c1 :: c2 :: rest =>
    if c1 = '\r' then
      if c2 = '\n' then '\n' :: univNewlines rest
      else '\n' :: univNewlines (c2 :: rest)
    else c1 :: univNewlines (c2 :: rest)

/-- `save_file` from `main.py`: resolve the request path through the path
guard, then `write_text` the content (a text-mode write, which on Linux
stores the text unchanged). -/
def save_file (W : List String) (st : FileStore) (p : ClientPath) (content : String) :
    Except HTTPError FileStore :=
  match safe_workspace_path W p with
  | .error e => .error e
  | .ok t => .ok ((t, content) :: st)

/-- `open_file` from `main.py`: resolve the request path through the path
guard, 404 when the file does not exist, otherwise `read_text` it — a
text-mode read, which applies universal-newline translation. -/
def open_file (W : List String) (st : FileStore) (p : ClientPath) :
    Except HTTPError String :=
  match safe_workspace_path W p with
  | .error e => .error e
  | .ok t =>
    match st.lookup t with
    | none => .error ⟨404, "File not found"⟩
    | some content => .ok (String.mk (univNewlines content.data))

/-- The round trip of C8: save, then open the same path. -/
def saveThenOpen (W : List String) (st : FileStore) (p : ClientPath) (c : String) :
    Except HTTPError String :=
  match save_file W st p c with
  | .error e => .error e
  | .ok st2 => open_file W st2 p

/-- `upload_files` from `main.py`: resolve the destination directory through
the path guard, then store each uploaded file at destination/filename — the
client-supplied filename is joined unguarded. Returns the canonical path
each stored file actually lands on. -/
def upload_out_paths (W : List String) (dest : ClientPath)
    (filenames : List ClientPath) : Except HTTPError (List (List String)) :=
  match safe_workspace_path W dest with
  | .error e => .error e
  | .ok d => .ok (filenames.map (fun f => pyResolve (pyJoin d f)))

/-! ### Theorems: C2 (upload containment) -/

/-- C2 fails on the code: upload with destination "" (the guarded workspace
root) and a file part named "../evil.txt" stores the file at
srv/evil.txt — outside the workspace root srv/workspace — because the
client-supplied filename is joined after the guard, unguarded. -/
theorem C2_upload_escapes_workspace :
    upload_out_paths ["srv", "workspace"] ⟨false, []⟩ [⟨false, ["..", "evil.txt"]⟩] =
      .ok [["srv", "evil.txt"]] ∧
    ¬ descendantOrRoot ["srv", "workspace"] ["srv", "evil.txt"] :=
  ⟨rfl, by decide⟩

/-! ### Theorems: C8 (save/open round trip) -/

theorem save_file_ok {W : List String} {p : ClientPath} {t : List String}
    (st : FileStore) (c : String) (hok : safe_workspace_path W p = .ok t) :
    save_file W st p c = .ok ((t, c) :: st) := by
  unfold save_file
  rw [hok]

theorem univNewlines_no_cr : ∀ l : List Char, '\r' ∉ l → univNewlines l = l := by
  intro l
  induction l with
  | nil => intro _; rfl
  | cons c rest ih =>
    intro h
    have hc : ¬ c = '\r' := fun he => h (he ▸ List.mem_cons_self c rest)
    cases rest with
    | nil => simp [univNewlines, hc]
    | cons c2 rest2 =>
      have h2 : '\r' ∉ c2 :: rest2 := fun hm => h (List.mem_cons_of_mem c hm)
      simp only [univNewlines, if_neg hc]
      rw [ih h2]

/-- C8 counterexample: the round trip is not the identity on content — text
written as "a\r\nb" is read back as "a\nb", because `read_text` applies
universal-newline translation. -/
theorem C8_counterexample :
    saveThenOpen ["srv", "workspace"] [] ⟨false, ["a.txt"]⟩ "a\r\nb" = .ok "a\nb" ∧
    ("a\nb" : String) ≠ "a\r\nb" :=
  ⟨rfl, by decide⟩

/-- C8 (amended): for every in-workspace path and every content free of
carriage returns, save followed by open returns exactly the content; in
general open returns the saved content with universal-newline translation
applied, so contents containing '\r' come back altered. -/
theorem C8_save_open_roundtrip (W : List String) (st : FileStore) (p : ClientPath)
    (c : String) (t : List String) (hok : safe_workspace_path W p = .ok t)
    (hcr : '\r' ∉ c.data) :
    saveThenOpen W st p c = .ok c := by
  unfold saveThenOpen
  rw [save_file_ok st c hok]
  unfold open_file
  rw [hok]
  have hlook : List.lookup t ((t, c) :: st) = some c := by
    simp [List.lookup]
  dsimp only
  rw [hlook]
  dsimp only
  rw [univNewlines_no_cr c.data hcr]

/-- Witness for C8 at a concrete input: CR-free content round-trips
unchanged through a path containing a `..` segment that stays inside the
workspace. -/
theorem C8_save_open_roundtrip_witness :
    saveThenOpen ["srv", "workspace"] [] ⟨false, ["d", "..", "n.txt"]⟩ "hello\nworld" =
      .ok "hello\nworld" :=
  C8_save_open_roundtrip ["srv", "workspace"] [] ⟨false, ["d", "..", "n.txt"]⟩
    "hello\nworld" ["srv", "workspace", "n.txt"] rfl (by decide)

/-! ### Interactive session (`ws_python`) -/

/-- A JSON frame sent outbound on the websocket: the stream tag ("stdout" or
"stderr") and the line as its value. -/
structure Frame where
  tag : String
  line : String
deriving DecidableEq

/-- Repeated `readline` on a stream whose full content is given: each `\n`
ends a line (the newline is kept in the line); content after the last
newline is returned as a final line without one; then EOF. `acc` holds the
current unfinished line, reversed. -/
def splitLines (acc : List Char) : List Char → List (List Char)
  | [] => if acc = [] then [] else [acc.reverse]
  | c :: rest =>
    if c = '\n' then (acc.reverse ++ ['\n']) :: splitLines [] rest
    else splitLines (c :: acc) rest

/-- The `pump` loop of `ws_python`: `readline` until the empty read (EOF),
sending each line as one frame tagged with the stream name. -/
def pump (tag : String) : List (List Char) → List Frame
  | [] => []
  | l :: rest => if l = [] then [] else ⟨tag, String.mk l⟩ :: pump tag rest

/-- The frames one pump task sends for a stream with the given full
content. -/
def pumpFrames (tag : String) (content : List Char) : List Frame :=
  pump tag (splitLines [] content)

/-- The inbound loop of `ws_python` over the channel messages after the
first: each message has `"\n"` appended and is written to the subprocess
stdin, then flushed. Returns the byte strings written, in order. -/
def inboundWrites : List String → List (List Char)
  | [] => []
  | msg :: rest => (msg.data ++ ['\n']) :: inboundWrites rest

/-- Cleanup steps on the exit paths of the `ws_python` handler. -/
inductive CleanupAction
  | deleteScratch
  | killProcess
  | cancelPumpTask
deriving DecidableEq

/-- What the `ws_python` handler performs, in order, when its inbound loop
exits (channel disconnect or error) with the subprocess exited or not: the
`with tempfile.TemporaryDirectory()` context deletes the scratch directory
as the exception unwinds, then the `finally` block kills the subprocess iff
`proc.returncode is None`. No statement of the handler cancels or awaits
the two pump tasks. -/
def ws_teardown (procRunning : Bool) : List CleanupAction :=
  [CleanupAction.deleteScratch] ++
    (if procRunning then [CleanupAction.killProcess] else [])

/-! ### Theorems: C6 (session teardown) -/

/-- C6 counterexample: on the disconnect-while-running exit path, the
handler never cancels or awaits the pump tasks — no such step occurs in its
teardown sequence, contradicting the claim that both pump tasks are
cancelled/awaited to completion on every exit path. -/
theorem C6_counterexample :
    CleanupAction.cancelPumpTask ∉ ws_teardown true := by decide

/-- C6 (amended): on every exit path of the session (disconnect or channel
error), the scratch workspace is deleted and, when the subprocess has not
already exited, it is forcibly killed — but the two pump tasks are neither
cancelled nor awaited; they are abandoned, ending only as a side effect of
the streams closing after the kill. -/
theorem C6_teardown (procRunning : Bool) :
    CleanupAction.deleteScratch ∈ ws_teardown procRunning ∧
    (procRunning = true → CleanupAction.killProcess ∈ ws_teardown procRunning) ∧
    CleanupAction.cancelPumpTask ∉ ws_teardown procRunning := by
  cases procRunning <;> refine ⟨by decide, ?_, by decide⟩
  · intro h; exact absurd h (by decide)
  · intro _; decide

/-- Witness for C6 at the concrete exit path with the subprocess still
running: the kill happens, the scratch directory is deleted, and no
pump-task cancellation occurs. -/
theorem C6_teardown_witness :
    CleanupAction.deleteScratch ∈ ws_teardown true ∧
    CleanupAction.killProcess ∈ ws_teardown true ∧
    CleanupAction.cancelPumpTask ∉ ws_teardown true :=
  ⟨(C6_teardown true).1, (C6_teardown true).2.1 rfl, (C6_teardown true).2.2⟩

/-! ### Theorems: C9 (interactive I/O framing) -/

theorem splitLines_ne_nil (content : List Char) :
    ∀ acc, ∀ l ∈ splitLines acc content, l ≠ [] := by
  induction content with
  | nil =>
    intro acc l hl
    unfold splitLines at hl
    by_cases h : acc = []
    · rw [if_pos h] at hl
      exact absurd hl (List.not_mem_nil l)
    · rw [if_neg h] at hl
      rcases List.mem_singleton.mp hl with rfl
      simpa using h
  | cons c rest ih =>
    intro acc l hl
    unfold splitLines at hl
    by_cases h : c = '\n'
    · rw [if_pos h] at hl
      rcases List.mem_cons.mp hl with rfl | hm
      · simp
      · exact ih [] l hm
    · rw [if_neg h] at hl
      exact ih (c :: acc) l hl

theorem pump_eq_map (tag : String) :
    ∀ lines : List (List Char), (∀ l ∈ lines, l ≠ []) →
      pump tag lines = lines.map (fun l => ⟨tag, String.mk l⟩) := by
  intro lines
  induction lines with
  | nil => intro _; rfl
  | cons l rest ih =>
    intro h
    unfold pump
    rw [if_neg (h l (List.mem_cons_self l rest))]
    rw [ih (fun x hx => h x (List.mem_cons_of_mem l hx))]
    rfl

theorem splitLines_join (content : List Char) :
    ∀ acc, (splitLines acc content).flatten = acc.reverse ++ content := by
  induction content with
  | nil =>
    intro acc
    unfold splitLines
    by_cases h : acc = []
    · rw [if_pos h, h]; rfl
    · rw [if_neg h]
      simp
  | cons c rest ih =>
    intro acc
    unfold splitLines
    by_cases h : c = '\n'
    · rw [if_pos h, h]
      simp [ih []]
    · rw [if_neg h]
      rw [ih (c :: acc)]
      simp

theorem splitLines_dropLast_newline (content : List Char) :
    ∀ acc, ∀ l ∈ (splitLines acc content).dropLast, l.getLast? = some '\n' := by
  induction content with
  | nil =>
    intro acc l hl
    unfold splitLines at hl
    by_cases h : acc = []
    · rw [if_pos h] at hl
      exact absurd hl (List.not_mem_nil l)
    · rw [if_neg h] at hl
      simp at hl
  | cons c rest ih =>
    intro acc l hl
    unfold splitLines at hl
    by_cases h : c = '\n'
    · rw [if_pos h] at hl
      rcases hrest : splitLines [] rest with _ | ⟨r, rs⟩
      · rw [hrest] at hl
        simp at hl
      · rw [hrest, List.dropLast_cons₂] at hl
        rcases List.mem_cons.mp hl with rfl | hm
        · simp
        · have := ih [] l
          rw [hrest] at this
          exact this hm
    · rw [if_neg h] at hl
      exact ih (c :: acc) l hl

/-- C9: in a running session, (inbound) every channel message after the
first is written to the subprocess stdin as exactly the message followed by
one newline, in order; (outbound) the frames a pump task sends are exactly
one frame per completed line of its stream, in stream order, with the
stream's tag, the newline kept inside the line string, and nothing lost:
the frame payloads concatenate back to the full stream content, and every
frame but possibly the last ends with a newline. -/
theorem C9_session_io (tag : String) (content : List Char) (msgs : List String) :
    pumpFrames tag content =
      (splitLines [] content).map (fun l => ⟨tag, String.mk l⟩) ∧
    ((pumpFrames tag content).map (fun fr => fr.line.data)).flatten = content ∧
    (∀ fr ∈ pumpFrames tag content, fr.tag = tag) ∧
    (∀ fr ∈ (pumpFrames tag content).dropLast, fr.line.data.getLast? = some '\n') ∧
    inboundWrites msgs = msgs.map (fun m => m.data ++ ['\n']) := by
  have hmap : pumpFrames tag content =
      (splitLines [] content).map (fun l => ⟨tag, String.mk l⟩) :=
    pump_eq_map tag _ (splitLines_ne_nil content [])
  refine ⟨hmap, ?_, ?_, ?_, ?_⟩
  · rw [hmap, List.map_map]
    have : ((splitLines [] content).map
        ((fun fr : Frame => fr.line.data) ∘ fun l => ⟨tag, String.mk l⟩)) =
        (splitLines [] content).map id := by
      apply List.map_congr_left
      intro a _
      rfl
    rw [this, List.map_id]
    exact splitLines_join content []
  · intro fr hfr
    rw [hmap] at hfr
    obtain ⟨l, _, rfl⟩ := List.mem_map.mp hfr
    rfl
  · intro fr hfr
    rw [hmap, ← List.map_dropLast] at hfr
    obtain ⟨l, hl, rfl⟩ := List.mem_map.mp hfr
    exact splitLines_dropLast_newline content [] l hl
  · induction msgs with
    | nil => rfl
    | cons m rest ih => simp [inboundWrites, ih]

end IDEBackend
